/-
  Verification of the AI-Assistant streaming-session backend.

  Shallow embedding of the core operations of the repository:
  * `app/core/text_chunker.py`  — word-bounded chunking of long texts,
  * `ai_service.py`             — chunk-and-combine summarization and the
                                  producer/consumer streaming bridge,
  * `app/core/file_parser.py`   — supported-file collection,
  * `app/core/folder_agent.py`  — per-file batch summaries,
  * `server.py`                 — WebSocket session state machine
                                  (history bound, title, validation,
                                  stream task bookkeeping).

  Python strings are modelled as `List Char`; effectful backend calls are
  modelled by explicit oracles (`Except`-valued functions) and explicit
  state passing.
-/
import Mathlib

/-- Python strings are modelled as lists of characters. -/
abbrev Str := List Char

/-- ASCII whitespace recognised by Python's `str.split()` / `str.strip()`
(the repository only ever splits plain ASCII text). -/
def isPySpace (c : Char) : Bool :=
  c = ' ' || c = '\t' || c = '\n' || c = '\r' || c = '\x0b' || c = '\x0c'

/-- Python `str.strip()`: drop leading and trailing whitespace. -/
def pyStrip (s : Str) : Str :=
  ((s.dropWhile isPySpace).reverse.dropWhile isPySpace).reverse

/-- Worker for `splitWords`: `cur` holds the characters of the word being
read, in reverse order. -/
def splitAux : Str → Str → List Str
  | [], cur => if cur = [] then [] else [cur.reverse]
  | c :: cs, cur =>
    if isPySpace c then
      if cur = [] then splitAux cs [] else cur.reverse :: splitAux cs []
    else splitAux cs (c :: cur)

/-- Python `str.split()` with no argument: maximal runs of non-whitespace
characters, runs of whitespace are separators, no empty words. -/
def splitWords (s : Str) : List Str := splitAux s []

/-- Python `sep.join(parts)`. -/
def joinSep (sep : Str) : List Str → Str
  | [] => []
  | [w] => w
  | w :: ws => w ++ sep ++ joinSep sep ws

/-- `" ".join(words)`, as used by `chunk_text`. -/
def joinWords (ws : List Str) : Str := joinSep [' '] ws

/-- `text_chunker.word_count`: `len(text.split())` (0 for the empty text). -/
def word_count (text : Str) : Nat := (splitWords text).length

/-- `text_chunker.MAX_WORDS_PER_CHUNK`. -/
def MAX_WORDS_PER_CHUNK : Nat := 6000

/-- The accumulation loop of `chunk_text`: walk the word list, append the
current group once it reaches `max_words` words, flush a nonempty remainder
at the end.  `cur`/`cnt` mirror the Python locals `current`/`current_count`. -/
def chunkGo (maxw : Nat) : List Str → List Str → Nat → List (List Str)
  | [], cur, _ => if cur = [] then [] else [cur]
  | w :: ws, cur, cnt =>
    if maxw ≤ cnt + 1 then (cur ++ [w]) :: chunkGo maxw ws [] 0
    else chunkGo maxw ws (cur ++ [w]) (cnt + 1)

/-- `text_chunker.chunk_text`: empty text yields no chunk; a text of at most
`max_words` words is a single chunk; otherwise the word list is regrouped in
`max_words`-sized groups, each group re-joined with single spaces. -/
def chunk_text (text : Str) (max_words : Nat) : List Str :=
  if text = [] ∨ word_count text ≤ max_words then
    if text = [] then [] else [text]
  else (chunkGo max_words (splitWords text) [] 0).map joinWords

/-- Reference regrouping: consecutive groups of `maxw` elements (at least one
element per group, so the grouping also terminates for `maxw = 0`,
matching the loop's one-word groups in that degenerate case). -/
def chunksOf (maxw : Nat) : List α → List (List α)
  | [] => []
  | x :: xs => (x :: xs.take (maxw - 1)) :: chunksOf maxw (xs.drop (maxw - 1))
termination_by l => l.length
decreasing_by
  have := List.length_drop (maxw - 1) xs
  simp only [List.length_cons]; omega

/-! ### Properties of `splitWords` -/

theorem splitAux_nonspace_run (w : Str) (hw : ∀ c ∈ w, isPySpace c = false) :
    ∀ s cur, splitAux (w ++ s) cur = splitAux s (w.reverse ++ cur) := by
  induction w with
  | nil => intro s cur; simp
  | cons c w ih =>
    intro s cur
    have hc : isPySpace c = false := hw c (by simp)
    have hw' : ∀ x ∈ w, isPySpace x = false := fun x hx => hw x (by simp [hx])
    have hstep : splitAux ((c :: w) ++ s) cur = splitAux (w ++ s) (c :: cur) := by
      simp [splitAux, hc]
    rw [hstep, ih hw' s (c :: cur)]
    simp

theorem splitAux_words (s : Str) :
    ∀ cur, (∀ c ∈ cur, isPySpace c = false) →
      ∀ w ∈ splitAux s cur, w ≠ [] ∧ ∀ c ∈ w, isPySpace c = false := by
  induction s with
  | nil =>
    intro cur hcur w hk
    simp only [splitAux] at hk
    by_cases h0 : cur = []
    · simp [h0] at hk
    · simp only [h0, if_false, List.mem_singleton] at hk
      subst hk
      refine ⟨by simpa using h0, fun c hc => hcur c (by simpa using hc)⟩
  | cons c cs ih =>
    intro cur hcur w hk
    simp only [splitAux] at hk
    by_cases hsp : isPySpace c
    · simp only [hsp, if_true] at hk
      by_cases h0 : cur = []
      · simp only [h0, if_true] at hk
        exact ih [] (by simp) w hk
      · simp only [h0, if_false, List.mem_cons] at hk
        rcases hk with hk | hk
        · subst hk
          exact ⟨by simpa using h0, fun x hx => hcur x (by simpa using hx)⟩
        · exact ih [] (by simp) w hk
    · simp only [hsp, if_false] at hk
      refine ih (c :: cur) ?_ w hk
      intro x hx
      rcases List.mem_cons.mp hx with hx | hx
      · subst hx; simpa using hsp
      · exact hcur x hx

theorem splitWords_words (s : Str) :
    ∀ w ∈ splitWords s, w ≠ [] ∧ ∀ c ∈ w, isPySpace c = false :=
  splitAux_words s [] (by simp)

theorem splitWords_single (w : Str) (hw0 : w ≠ [])
    (hw : ∀ c ∈ w, isPySpace c = false) : splitWords w = [w] := by
  have h := splitAux_nonspace_run w hw [] []
  simp only [List.append_nil] at h
  unfold splitWords
  rw [h]
  simp [splitAux, hw0]

theorem splitWords_cons_word (w : Str) (hw0 : w ≠ [])
    (hw : ∀ c ∈ w, isPySpace c = false) (t : Str) :
    splitWords (w ++ ' ' :: t) = w :: splitWords t := by
  unfold splitWords
  rw [splitAux_nonspace_run w hw]
  have hsp : isPySpace ' ' = true := by decide
  simp [splitAux, hsp, hw0]

theorem splitWords_joinWords (ws : List Str)
    (h1 : ∀ w ∈ ws, w ≠ [])
    (h2 : ∀ w ∈ ws, ∀ c ∈ w, isPySpace c = false) :
    splitWords (joinWords ws) = ws := by
  induction ws with
  | nil => rfl
  | cons w ws ih =>
    cases ws with
    | nil =>
      exact splitWords_single w (h1 w (by simp)) (h2 w (by simp))
    | cons v vs =>
      have hjoin : joinWords (w :: v :: vs) = w ++ ' ' :: joinWords (v :: vs) := by
        simp [joinWords, joinSep]
      rw [hjoin, splitWords_cons_word w (h1 w (by simp)) (h2 w (by simp))]
      rw [ih (fun x hx => h1 x (by simp [hx])) (fun x hx => h2 x (by simp [hx]))]

/-! ### Properties of the grouping loop of `chunk_text` -/

theorem chunkGo_flatten (maxw : Nat) :
    ∀ (ws : List Str) cur cnt, (chunkGo maxw ws cur cnt).flatten = cur ++ ws := by
  intro ws
  induction ws with
  | nil =>
    intro cur cnt
    by_cases h0 : cur = [] <;> simp [chunkGo, h0]
  | cons w ws ih =>
    intro cur cnt
    by_cases h : maxw ≤ cnt + 1
    · simp [chunkGo, h, ih]
    · simp [chunkGo, h, ih]

theorem chunkGo_ne_nil (maxw : Nat) :
    ∀ (ws : List Str) cur cnt, ∀ g ∈ chunkGo maxw ws cur cnt, g ≠ [] := by
  intro ws
  induction ws with
  | nil =>
    intro cur cnt g hg
    by_cases h0 : cur = []
    · simp [chunkGo, h0] at hg
    · simp only [chunkGo, h0, if_false, List.mem_singleton] at hg
      subst hg; exact h0
  | cons w ws ih =>
    intro cur cnt g hg
    by_cases h : maxw ≤ cnt + 1
    · simp only [chunkGo, h, if_true, List.mem_cons] at hg
      rcases hg with hg | hg
      · subst hg; simp
      · exact ih [] 0 g hg
    · simp only [chunkGo, h, if_false] at hg
      exact ih (cur ++ [w]) (cnt + 1) g hg

theorem chunksOf_nil (maxw : Nat) : chunksOf maxw ([] : List α) = [] := by
  simp [chunksOf]

theorem chunksOf_cons_eq (maxw : Nat) (x : α) (xs : List α) :
    chunksOf maxw (x :: xs) =
      (x :: xs.take (maxw - 1)) :: chunksOf maxw (xs.drop (maxw - 1)) := by
  simp [chunksOf]

theorem chunksOf_append_full (maxw : Nat) (h1 : 1 ≤ maxw)
    (u : List α) (hu : u.length = maxw) (v : List α) :
    chunksOf maxw (u ++ v) = u :: chunksOf maxw v := by
  cases u with
  | nil => exfalso; simp at hu; omega
  | cons x xs =>
    have hxs : xs.length = maxw - 1 := by simp at hu; omega
    rw [List.cons_append, chunksOf_cons_eq]
    rw [← hxs, List.take_left, List.drop_left]

theorem chunkGo_eq_chunksOf (maxw : Nat) :
    ∀ (ws : List Str) cur, cur.length < maxw →
      chunkGo maxw ws cur cur.length = chunksOf maxw (cur ++ ws) := by
  intro ws
  induction ws with
  | nil =>
    intro cur hcur
    by_cases h0 : cur = []
    · simp [chunkGo, h0, chunksOf_nil]
    · cases cur with
      | nil => exact absurd rfl h0
      | cons c cs =>
        simp only [List.length_cons] at hcur
        rw [List.append_nil, chunksOf_cons_eq]
        have ht : cs.take (maxw - 1) = cs := List.take_of_length_le (by omega)
        have hd : cs.drop (maxw - 1) = [] := List.drop_eq_nil_of_le (by omega)
        simp [chunkGo, ht, hd, chunksOf_nil]
  | cons w ws ih =>
    intro cur hcur
    by_cases h : maxw ≤ cur.length + 1
    · have hlen : (cur ++ [w]).length = maxw := by simp; omega
      have : cur ++ w :: ws = (cur ++ [w]) ++ ws := by simp
      rw [this, chunksOf_append_full maxw (by omega) _ hlen]
      have hih := ih [] (by simp only [List.length_nil]; omega)
      simp only [List.length_nil, List.nil_append] at hih
      simp only [chunkGo, h, if_true]
      rw [hih]
    · have hlen : (cur ++ [w]).length = cur.length + 1 := by simp
      have hstep : chunkGo maxw (w :: ws) cur cur.length
          = chunkGo maxw ws (cur ++ [w]) (cur.length + 1) := by
        simp [chunkGo, h]
      have hih := ih (cur ++ [w])
        (show (cur ++ [w]).length < maxw by
          simp only [List.length_append, List.length_cons, List.length_nil]; omega)
      rw [hstep, ← hlen, hih]
      simp

theorem chunksOf_flatten (maxw : Nat) :
    ∀ l : List α, (chunksOf maxw l).flatten = l := by
  intro l
  induction l using chunksOf.induct maxw with
  | case1 => simp [chunksOf_nil]
  | case2 x xs ih =>
    rw [chunksOf_cons_eq]
    simp only [List.flatten_cons, ih]
    simp [List.take_append_drop]

theorem chunksOf_mem_props (maxw : Nat) (h1 : 1 ≤ maxw) :
    ∀ l : List α, ∀ g ∈ chunksOf maxw l, g ≠ [] ∧ g.length ≤ maxw := by
  intro l
  induction l using chunksOf.induct maxw with
  | case1 => simp [chunksOf_nil]
  | case2 x xs ih =>
    intro g hg
    rw [chunksOf_cons_eq] at hg
    rcases List.mem_cons.mp hg with hg | hg
    · subst hg
      constructor
      · simp
      · have := List.length_take (maxw - 1) xs
        simp only [List.length_cons, this]
        omega
    · exact ih g hg

theorem chunksOf_getD_length (maxw : Nat) (h1 : 1 ≤ maxw) :
    ∀ l : List α, ∀ i, i + 1 < (chunksOf maxw l).length →
      ((chunksOf maxw l).getD i []).length = maxw := by
  intro l
  induction l using chunksOf.induct maxw with
  | case1 => simp [chunksOf_nil]
  | case2 x xs ih =>
    intro i hi
    rw [chunksOf_cons_eq] at hi ⊢
    cases i with
    | zero =>
      simp only [List.length_cons] at hi
      have hrest : chunksOf maxw (xs.drop (maxw - 1)) ≠ [] := by
        intro hnil
        rw [hnil] at hi
        simp at hi
      have hd : xs.drop (maxw - 1) ≠ [] := by
        intro hnil
        rw [hnil, chunksOf_nil] at hrest
        exact hrest rfl
      have hlt : maxw - 1 < xs.length := by
        by_contra hle
        exact hd (List.drop_eq_nil_of_le (by omega))
      simp only [List.getD_cons_zero, List.length_cons, List.length_take]
      omega
    | succ j =>
      simp only [List.length_cons] at hi
      simpa using ih j (by omega)

/-! ### `chunk_text` in the long-text branch -/

theorem word_count_nil : word_count [] = 0 := rfl

theorem chunk_text_of_lt (t : Str) (M : Nat) (hM : 0 < M) (h : M < word_count t) :
    chunk_text t M = (chunksOf M (splitWords t)).map joinWords := by
  have ht : t ≠ [] := by
    intro h0; subst h0; rw [word_count_nil] at h; omega
  have hcond : ¬(t = [] ∨ word_count t ≤ M) := by
    push_neg; exact ⟨ht, h⟩
  rw [chunk_text, if_neg hcond]
  have := chunkGo_eq_chunksOf M (splitWords t) []
    (by simp only [List.length_nil]; omega)
  simp only [List.length_nil, List.nil_append] at this
  rw [this]

theorem mem_chunksOf_splitWords (t : Str) (M : Nat)
    {g : List Str} (hg : g ∈ chunksOf M (splitWords t)) :
    ∀ w ∈ g, w ≠ [] ∧ ∀ c ∈ w, isPySpace c = false := by
  intro w hw
  have : w ∈ (chunksOf M (splitWords t)).flatten :=
    List.mem_flatten.mpr ⟨g, hg, hw⟩
  rw [chunksOf_flatten] at this
  exact splitWords_words t w this

theorem splitWords_joinWords_chunk (t : Str) (M : Nat)
    {g : List Str} (hg : g ∈ chunksOf M (splitWords t)) :
    splitWords (joinWords g) = g :=
  splitWords_joinWords g
    (fun w hw => (mem_chunksOf_splitWords t M hg w hw).1)
    (fun w hw => (mem_chunksOf_splitWords t M hg w hw).2)

theorem joinWords_ne_nil {g : List Str} (hg : g ≠ [])
    (hw : ∀ w ∈ g, w ≠ []) : joinWords g ≠ [] := by
  cases g with
  | nil => exact absurd rfl hg
  | cons w gs =>
    cases gs with
    | nil => simpa [joinWords, joinSep] using hw w (by simp)
    | cons v vs =>
      have : joinWords (w :: v :: vs) = w ++ ' ' :: joinWords (v :: vs) := by
        simp [joinWords, joinSep]
      rw [this]
      intro hnil
      have := congrArg List.length hnil
      simp at this

theorem map_joinWords_getD (G : List (List Str)) (i : Nat) :
    (G.map joinWords).getD i [] = joinWords (G.getD i []) := by
  rw [List.getD_eq_getElem?_getD, List.getD_eq_getElem?_getD, List.getElem?_map]
  cases G[i]? <;> rfl

/-- Claim C3: for every text `T` and every `max_words M > 0`, the chunks of
`chunk_text T M` concatenate back to exactly `T`'s word sequence, the empty
text yields the empty chunk sequence, and no chunk is the empty string. -/
theorem chunk_text_reconstruction (t : Str) (M : Nat) (hM : 0 < M) :
    ((chunk_text t M).map splitWords).flatten = splitWords t
    ∧ (t = [] → chunk_text t M = [])
    ∧ ∀ c ∈ chunk_text t M, c ≠ [] := by
  by_cases ht : t = []
  · subst ht
    refine ⟨by simp [chunk_text, splitWords, splitAux], fun _ => by simp [chunk_text], ?_⟩
    intro c hc
    simp [chunk_text] at hc
  · by_cases hle : word_count t ≤ M
    · have hchunks : chunk_text t M = [t] := by
        rw [chunk_text, if_pos (Or.inr hle), if_neg ht]
      refine ⟨by simp [hchunks], fun h => absurd h ht, ?_⟩
      intro c hc
      rw [hchunks, List.mem_singleton] at hc
      subst hc; exact ht
    · have hlt : M < word_count t := by omega
      have hchunks := chunk_text_of_lt t M hM hlt
      constructor
      · rw [hchunks, List.map_map]
        have hmap : (chunksOf M (splitWords t)).map (splitWords ∘ joinWords)
            = chunksOf M (splitWords t) := by
          have hcongr := List.map_congr_left (l := chunksOf M (splitWords t))
            (f := splitWords ∘ joinWords) (g := id)
            (fun g hg => splitWords_joinWords_chunk t M hg)
          simpa using hcongr
        rw [hmap, chunksOf_flatten]
      · refine ⟨fun h => absurd h ht, ?_⟩
        intro c hc
        rw [hchunks] at hc
        rcases List.mem_map.mp hc with ⟨g, hg, rfl⟩
        exact joinWords_ne_nil (chunksOf_mem_props M hM _ g hg).1
          (fun w hw => (mem_chunksOf_splitWords t M hg w hw).1)

theorem chunk_text_reconstruction_witness :
    0 < 2 ∧
      ((((chunk_text ("a b c".data) 2).map splitWords).flatten
          = splitWords ("a b c".data))
      ∧ ("a b c".data = [] → chunk_text ("a b c".data) 2 = [])
      ∧ ∀ c ∈ chunk_text ("a b c".data) 2, c ≠ []) :=
  ⟨by decide, chunk_text_reconstruction ("a b c".data) 2 (by decide)⟩

/-! ### Claim C4: strict word-count group sizes -/

/-- A concrete 7000-word text: 7000 copies of the word `a`. -/
def exWord : Str := ['a']

/-- The 7000-word example document from the specification. -/
def ex7000 : Str := joinWords (List.replicate 7000 exWord)

theorem replicate_exWord_props (n : Nat) :
    (∀ w ∈ List.replicate n exWord, w ≠ [])
    ∧ ∀ w ∈ List.replicate n exWord, ∀ c ∈ w, isPySpace c = false := by
  constructor
  · intro w hw
    rw [List.eq_of_mem_replicate hw]
    simp [exWord]
  · intro w hw c hc
    rw [List.eq_of_mem_replicate hw] at hc
    simp only [exWord, List.mem_singleton] at hc
    subst hc; decide

theorem splitWords_replicate_join (n : Nat) :
    splitWords (joinWords (List.replicate n exWord)) = List.replicate n exWord :=
  splitWords_joinWords _ (replicate_exWord_props n).1 (replicate_exWord_props n).2

theorem word_count_ex7000 : word_count ex7000 = 7000 := by
  rw [ex7000, word_count, splitWords_replicate_join, List.length_replicate]

theorem chunksOf_replicate_ex :
    chunksOf 6000 (List.replicate 7000 exWord)
      = [List.replicate 6000 exWord, List.replicate 1000 exWord] := by
  have hsplit : List.replicate 7000 exWord
      = List.replicate 6000 exWord ++ List.replicate 1000 exWord := by
    rw [← List.replicate_add]
  rw [hsplit, chunksOf_append_full 6000 (by omega) _ (by rw [List.length_replicate]) _]
  have h1000 : List.replicate 1000 exWord = exWord :: List.replicate 999 exWord := by
    rw [← List.replicate_succ]
  rw [h1000, chunksOf_cons_eq]
  have ht : (List.replicate 999 exWord).take (6000 - 1) = List.replicate 999 exWord :=
    List.take_of_length_le (by rw [List.length_replicate]; omega)
  have hd : (List.replicate 999 exWord).drop (6000 - 1) = [] :=
    List.drop_eq_nil_of_le (by rw [List.length_replicate]; omega)
  rw [ht, hd, chunksOf_nil]

/-- Claim C4: when the word count of the text exceeds `max_words > 0`, every
chunk has at most `max_words` words and every chunk except the last has
exactly `max_words` words; in particular the 7000-word example text with
`max_words = 6000` yields exactly the word counts `[6000, 1000]`. -/
theorem chunk_text_group_sizes :
    (∀ (t : Str) (M : Nat), 0 < M → M < word_count t →
      (∀ c ∈ chunk_text t M, word_count c ≤ M)
      ∧ ∀ i, i + 1 < (chunk_text t M).length →
          word_count ((chunk_text t M).getD i []) = M)
    ∧ (chunk_text ex7000 6000).map word_count = [6000, 1000] := by
  constructor
  · intro t M hM hlt
    have hchunks := chunk_text_of_lt t M hM hlt
    constructor
    · intro c hc
      rw [hchunks] at hc
      rcases List.mem_map.mp hc with ⟨g, hg, rfl⟩
      rw [word_count, splitWords_joinWords_chunk t M hg]
      exact (chunksOf_mem_props M hM _ g hg).2
    · intro i hi
      rw [hchunks] at hi ⊢
      rw [map_joinWords_getD, word_count]
      have hilen : i < (chunksOf M (splitWords t)).length := by
        rw [List.length_map] at hi; omega
      have hmem : (chunksOf M (splitWords t)).getD i [] ∈ chunksOf M (splitWords t) := by
        rw [List.getD_eq_getElem?_getD, List.getElem?_eq_getElem hilen]
        exact List.getElem_mem hilen
      rw [splitWords_joinWords_chunk t M hmem]
      exact chunksOf_getD_length M hM _ i (by rw [List.length_map] at hi; omega)
  · have hwc : 6000 < word_count ex7000 := by rw [word_count_ex7000]; omega
    rw [chunk_text_of_lt ex7000 6000 (by omega) hwc]
    have hsw : splitWords ex7000 = List.replicate 7000 exWord := by
      rw [ex7000, splitWords_replicate_join]
    rw [hsw, chunksOf_replicate_ex]
    simp only [List.map_cons, List.map_nil, List.map_map]
    rw [show word_count (joinWords (List.replicate 6000 exWord)) = 6000 by
      rw [word_count, splitWords_replicate_join, List.length_replicate]]
    rw [show word_count (joinWords (List.replicate 1000 exWord)) = 1000 by
      rw [word_count, splitWords_replicate_join, List.length_replicate]]

theorem chunk_text_group_sizes_witness :
    (0 < 1 ∧ 1 < word_count ("a b c".data))
    ∧ ((∀ c ∈ chunk_text ("a b c".data) 1, word_count c ≤ 1)
      ∧ ∀ i, i + 1 < (chunk_text ("a b c".data) 1).length →
          word_count ((chunk_text ("a b c".data) 1).getD i []) = 1) :=
  ⟨⟨by decide, by decide⟩,
    chunk_text_group_sizes.1 ("a b c".data) 1 (by decide) (by decide)⟩

/-! ### `ai_service.summarize_long_text`

The blocking per-chunk backend call `_generate_sync_full` is modelled by an
oracle `backend : Nat → Str → Except Str Str` giving, for the i-th call and
its chunk, either the model output or the raised exception's message.  The
second component of the result counts the backend calls actually issued. -/

/-- `ai_service.MAX_FILE_WORDS` (same value as `config.MAX_FILE_WORDS`). -/
def MAX_FILE_WORDS : Nat := 6000

/-- The separator `summarize_long_text` joins chunk summaries with. -/
def SUMMARY_SEP : Str := "\n\n---\n\n".data

/-- The inline placeholder recorded for chunk `i` (0-based) when its backend
call raises: `[Chunk {i+1} summary failed: {e}]`. -/
def pyPlaceholder (i : Nat) (e : Str) : Str :=
  "[Chunk ".data ++ (Nat.repr (i + 1)).data ++ " summary failed: ".data ++ e ++ "]".data

/-- Outcome recorded for one chunk: the stripped backend output on success,
the inline placeholder on failure. -/
def chunkOut (backend : Nat → Str → Except Str Str) (i : Nat) (ch : Str) : Str :=
  match backend i ch with
  | .ok out => pyStrip out
  | .error e => pyPlaceholder i e

/-- The `for i, ch in enumerate(chunks)` loop of `summarize_long_text`:
returns the list of per-chunk outputs and the number of backend calls. -/
def summarizeLoop (backend : Nat → Str → Except Str Str) :
    Nat → List Str → List Str × Nat
  | _, [] => ([], 0)
  | i, ch :: rest =>
    let r := summarizeLoop backend (i + 1) rest
    (chunkOut backend i ch :: r.1, r.2 + 1)

/-- `ai_service.summarize_long_text`: chunk the raw text, summarize each chunk
with one backend call, join the outputs with the fixed separator.  Returns
the digest together with the number of backend calls issued. -/
def summarize_long_text (backend : Nat → Str → Except Str Str) (raw : Str) :
    Str × Nat :=
  let chunks := chunk_text raw MAX_FILE_WORDS
  if chunks = [] then ([], 0)
  else
    let r := summarizeLoop backend 0 chunks
    (joinSep SUMMARY_SEP r.1, r.2)

theorem summarizeLoop_spec (backend : Nat → Str → Except Str Str) :
    ∀ (cs : List Str) (i : Nat),
      (summarizeLoop backend i cs).2 = cs.length
      ∧ (summarizeLoop backend i cs).1.length = cs.length
      ∧ ∀ k, k < cs.length →
          (summarizeLoop backend i cs).1.getD k []
            = chunkOut backend (i + k) (cs.getD k []) := by
  intro cs
  induction cs with
  | nil => intro i; refine ⟨rfl, rfl, ?_⟩; intro k hk; simp at hk
  | cons ch rest ih =>
    intro i
    refine ⟨?_, ?_, ?_⟩
    · simp [summarizeLoop, (ih (i + 1)).1]
    · simp [summarizeLoop, (ih (i + 1)).2.1]
    · intro k hk
      cases k with
      | zero => simp [summarizeLoop]
      | succ j =>
        have hj := (ih (i + 1)).2.2 j (by simp at hk; omega)
        simp only [summarizeLoop, List.getD_cons_succ]
        rw [hj]
        congr 1
        omega

theorem chunk_text_ne_nil (t : Str) (ht : t ≠ []) (M : Nat) (hM : 0 < M) :
    chunk_text t M ≠ [] := by
  by_cases hle : word_count t ≤ M
  · rw [chunk_text, if_pos (Or.inr hle), if_neg ht]
    simp
  · rw [chunk_text_of_lt t M hM (by omega)]
    intro hnil
    have hG : chunksOf M (splitWords t) = [] := List.map_eq_nil_iff.mp hnil
    have hfl := chunksOf_flatten M (splitWords t)
    rw [hG] at hfl
    simp only [List.flatten_nil] at hfl
    rw [word_count, ← hfl] at hle
    simp at hle

/-- Claim C5: `summarize_long_text` issues exactly one non-streaming backend
call per chunk, sequentially in order; the output is the ordered list of
per-chunk results joined by the fixed separator, where a failed chunk
contributes an inline placeholder carrying that chunk's (1-based) index and
the error text instead of aborting the operation. -/
theorem summarize_long_text_per_chunk (backend : Nat → Str → Except Str Str)
    (raw : Str) (h : chunk_text raw MAX_FILE_WORDS ≠ []) :
    (summarize_long_text backend raw).2 = (chunk_text raw MAX_FILE_WORDS).length
    ∧ (∃ outs : List Str,
        (summarize_long_text backend raw).1 = joinSep SUMMARY_SEP outs
        ∧ outs.length = (chunk_text raw MAX_FILE_WORDS).length
        ∧ ∀ k, k < (chunk_text raw MAX_FILE_WORDS).length →
            outs.getD k []
              = chunkOut backend k ((chunk_text raw MAX_FILE_WORDS).getD k []))
    ∧ ∀ i e, backend i ((chunk_text raw MAX_FILE_WORDS).getD i []) = .error e →
        chunkOut backend i ((chunk_text raw MAX_FILE_WORDS).getD i [])
          = pyPlaceholder i e
        ∧ (Nat.repr (i + 1)).data <:+: pyPlaceholder i e
        ∧ e <:+: pyPlaceholder i e := by
  have hspec := summarizeLoop_spec backend (chunk_text raw MAX_FILE_WORDS) 0
  refine ⟨?_, ⟨(summarizeLoop backend 0 (chunk_text raw MAX_FILE_WORDS)).1,
      ?_, hspec.2.1, ?_⟩, ?_⟩
  · rw [summarize_long_text, if_neg h]
    exact hspec.1
  · rw [summarize_long_text, if_neg h]
  · intro k hk
    have := hspec.2.2 k hk
    rwa [Nat.zero_add] at this
  · intro i e he
    refine ⟨by rw [chunkOut, he], ?_, ?_⟩
    · exact ⟨"[Chunk ".data,
        " summary failed: ".data ++ e ++ "]".data,
        by simp [pyPlaceholder]⟩
    · exact ⟨"[Chunk ".data ++ (Nat.repr (i + 1)).data ++ " summary failed: ".data,
        "]".data, by simp [pyPlaceholder]⟩

/-- A concrete backend oracle: succeeds on the first call, fails afterwards. -/
def exBackend : Nat → Str → Except Str Str :=
  fun i _ => if i = 0 then .ok " S ".data else .error "boom".data

theorem summarize_long_text_per_chunk_witness :
    (chunk_text "hi".data MAX_FILE_WORDS ≠ [])
    ∧ ((summarize_long_text exBackend "hi".data).2
          = (chunk_text "hi".data MAX_FILE_WORDS).length
      ∧ (∃ outs : List Str,
          (summarize_long_text exBackend "hi".data).1 = joinSep SUMMARY_SEP outs
          ∧ outs.length = (chunk_text "hi".data MAX_FILE_WORDS).length
          ∧ ∀ k, k < (chunk_text "hi".data MAX_FILE_WORDS).length →
              outs.getD k []
                = chunkOut exBackend k ((chunk_text "hi".data MAX_FILE_WORDS).getD k []))
      ∧ ∀ i e,
          exBackend i ((chunk_text "hi".data MAX_FILE_WORDS).getD i []) = .error e →
            chunkOut exBackend i ((chunk_text "hi".data MAX_FILE_WORDS).getD i [])
              = pyPlaceholder i e
            ∧ (Nat.repr (i + 1)).data <:+: pyPlaceholder i e
            ∧ e <:+: pyPlaceholder i e) :=
  ⟨by decide, summarize_long_text_per_chunk exBackend "hi".data (by decide)⟩

/-- Claim C10: summarizing the empty text returns the empty digest with no
backend call; summarizing any non-empty text (including whitespace-only
text, whose word count is 0) issues at least one backend call. -/
theorem summarize_long_text_empty_calls (backend : Nat → Str → Except Str Str) :
    summarize_long_text backend [] = ([], 0)
    ∧ ∀ raw : Str, raw ≠ [] → 1 ≤ (summarize_long_text backend raw).2 := by
  constructor
  · have hnil : chunk_text [] MAX_FILE_WORDS = [] := by
      rw [chunk_text, if_pos (Or.inl rfl), if_pos rfl]
    rw [summarize_long_text, hnil, if_pos rfl]
  · intro raw hraw
    have hne : chunk_text raw MAX_FILE_WORDS ≠ [] :=
      chunk_text_ne_nil raw hraw MAX_FILE_WORDS (by rw [MAX_FILE_WORDS]; omega)
    rw [summarize_long_text, if_neg hne]
    have hspec := summarizeLoop_spec backend (chunk_text raw MAX_FILE_WORDS) 0
    have hpos : 0 < (chunk_text raw MAX_FILE_WORDS).length :=
      List.length_pos.mpr hne
    change 1 ≤ (summarizeLoop backend 0 (chunk_text raw MAX_FILE_WORDS)).2
    omega

theorem summarize_long_text_empty_calls_witness :
    summarize_long_text exBackend [] = ([], 0)
    ∧ 1 ≤ (summarize_long_text exBackend (" ".data)).2 :=
  ⟨(summarize_long_text_empty_calls exBackend).1,
    (summarize_long_text_empty_calls exBackend).2 (" ".data) (by decide)⟩

/-! ### `file_parser.collect_supported_files` and `folder_agent.iter_file_summaries`

A folder listing is modelled as a list of directory entries (path plus
file/directory flag); `sorted(...)` on paths is modelled by a stable
insertion sort under lexicographic character order; the extraction and
summarization calls (both can raise) are modelled by `Except`-valued
oracles. -/

/-- One entry of a folder listing. -/
structure DirEntry where
  path : Str
  isFile : Bool
deriving DecidableEq

/-- `pathlib.PurePath.name`: the part of the path after the last `/`. -/
def lastComponent (p : Str) : Str :=
  p.foldl (fun acc c => if c = '/' then [] else acc ++ [c]) []

/-- `pathlib.PurePath.suffix`: the extension of the final component,
including the dot; empty when there is no dot or the only dot is the
leading character of a hidden file. -/
def pathSuffix (p : Str) : Str :=
  let base := lastComponent p
  let revTail := base.reverse.takeWhile (fun c => c ≠ '.')
  if revTail.length + 1 ≤ base.length then
    if revTail.length + 1 = base.length then [] else '.' :: revTail.reverse
  else []

/-- Python `str.lower()` (ASCII as used for extensions). -/
def toLowerStr (s : Str) : Str := s.map Char.toLower

/-- `file_parser.SUPPORTED_EXTENSIONS`. -/
def SUPPORTED_EXTENSIONS : List Str :=
  [".pdf".data, ".docx".data, ".txt".data, ".csv".data]

/-- The filter of `collect_supported_files`:
`p.is_file() and p.suffix.lower() in SUPPORTED_EXTENSIONS`. -/
def isSupportedFile (e : DirEntry) : Bool :=
  e.isFile && SUPPORTED_EXTENSIONS.contains (toLowerStr (pathSuffix e.path))

/-- Lexicographic comparison of paths, modelling `sorted` on `Path` values. -/
def strLe : Str → Str → Bool
  | [], _ => true
  | _ :: _, [] => false
  | a :: as, b :: bs => if a = b then strLe as bs else decide (a < b)

/-- Insert into a sorted list, keeping earlier equal elements first. -/
def insertLe (le : α → α → Bool) (x : α) : List α → List α
  | [] => [x]
  | y :: ys => if le x y then x :: y :: ys else y :: insertLe le x ys

/-- Stable sort modelling Python's `sorted`. -/
def pySorted (le : α → α → Bool) : List α → List α
  | [] => []
  | x :: xs => insertLe le x (pySorted le xs)

/-- `file_parser.collect_supported_files`: the supported files of the
listing, sorted by path. -/
def collect_supported_files (entries : List DirEntry) : List Str :=
  pySorted strLe ((entries.filter isSupportedFile).map DirEntry.path)

/-- One `{name, summary, error}` record yielded by the batch. -/
structure FileResult where
  name : Str
  summary : Str
  error : Option Str
deriving DecidableEq, Inhabited

/-- Message yielded when the folder holds no supported file. -/
def NO_SUPPORTED_MSG : Str :=
  "No supported files (.pdf, .docx, .txt, .csv) in this folder.".data

/-- The per-file body of the loop of `iter_file_summaries`: a failed
extraction yields an error record and the loop continues; otherwise the
text is summarized, a failed summarization again yielding an error record. -/
def fileResultFor (extract : Str → Except Str Str)
    (summarizer : Str → Except Str Str) (p : Str) : FileResult :=
  match extract p with
  | .error e => ⟨lastComponent p, [], some ("Failed to read file: ".data ++ e)⟩
  | .ok text =>
    match summarizer text with
    | .ok s => ⟨lastComponent p, pyStrip s, none⟩
    | .error e =>
      ⟨lastComponent p, pyStrip [], some ("Summarization failed: ".data ++ e)⟩

/-- `folder_agent.iter_file_summaries` (folder assumed to exist): one record
per supported file in sorted order, or a single error record when the
folder holds no supported file. -/
def iter_file_summaries (extract : Str → Except Str Str)
    (summarizer : Str → Except Str Str) (entries : List DirEntry)
    (folderName : Str) : List FileResult :=
  let paths := collect_supported_files entries
  if paths = [] then [⟨folderName, [], some NO_SUPPORTED_MSG⟩]
  else paths.map (fileResultFor extract summarizer)

theorem strLe_total : ∀ a b : Str, strLe a b = true ∨ strLe b a = true := by
  intro a
  induction a with
  | nil => intro b; left; rfl
  | cons x xs ih =>
    intro b
    cases b with
    | nil => right; rfl
    | cons y ys =>
      by_cases hxy : x = y
      · subst hxy
        rcases ih ys with h | h
        · left; simpa [strLe] using h
        · right; simpa [strLe] using h
      · rcases lt_trichotomy x y with hlt | heq | hgt
        · left; simp [strLe, hxy, hlt]
        · exact absurd heq hxy
        · right; simp [strLe, Ne.symm hxy, hgt]

theorem strLe_trans :
    ∀ a b c : Str, strLe a b = true → strLe b c = true → strLe a c = true := by
  intro a
  induction a with
  | nil => intro b c _ _; rfl
  | cons x xs ih =>
    intro b c hab hbc
    cases b with
    | nil => simp [strLe] at hab
    | cons y ys =>
      cases c with
      | nil => simp [strLe] at hbc
      | cons z zs =>
        by_cases hxy : x = y
        · subst hxy
          rw [strLe, if_pos rfl] at hab
          by_cases hyz : x = z
          · subst hyz
            rw [strLe, if_pos rfl] at hbc ⊢
            exact ih ys zs hab hbc
          · rw [strLe, if_neg hyz] at hbc ⊢
            exact hbc
        · rw [strLe, if_neg hxy] at hab
          have hxy' : x < y := of_decide_eq_true hab
          by_cases hyz : y = z
          · subst hyz
            rw [strLe, if_neg hxy]
            simp [hxy']
          · rw [strLe, if_neg hyz] at hbc
            have hyz' : y < z := of_decide_eq_true hbc
            have hxz : x < z := lt_trans hxy' hyz'
            rw [strLe, if_neg (ne_of_lt hxz)]
            simp [hxz]

theorem insertLe_perm (le : α → α → Bool) (x : α) :
    ∀ l : List α, (insertLe le x l).Perm (x :: l) := by
  intro l
  induction l with
  | nil => exact List.Perm.refl _
  | cons y ys ih =>
    by_cases h : le x y
    · rw [insertLe, if_pos h]
    · rw [insertLe, if_neg h]
      exact (ih.cons y).trans (List.Perm.swap x y ys)

theorem pySorted_perm (le : α → α → Bool) :
    ∀ l : List α, (pySorted le l).Perm l := by
  intro l
  induction l with
  | nil => exact List.Perm.refl _
  | cons x xs ih =>
    exact (insertLe_perm le x (pySorted le xs)).trans (ih.cons x)

theorem insertLe_pairwise (le : α → α → Bool)
    (hTot : ∀ a b, le a b = true ∨ le b a = true)
    (hTrans : ∀ a b c, le a b = true → le b c = true → le a c = true)
    (x : α) :
    ∀ l : List α, l.Pairwise (fun a b => le a b = true) →
      (insertLe le x l).Pairwise (fun a b => le a b = true) := by
  intro l
  induction l with
  | nil => intro _; simp [insertLe]
  | cons y ys ih =>
    intro hl
    rcases List.pairwise_cons.mp hl with ⟨hy, hys⟩
    by_cases h : le x y
    · rw [insertLe, if_pos h]
      refine List.pairwise_cons.mpr ⟨?_, hl⟩
      intro b hb
      rcases List.mem_cons.mp hb with hb | hb
      · subst hb; exact h
      · exact hTrans x y b h (hy b hb)
    · rw [insertLe, if_neg h]
      have hyx : le y x = true := by
        rcases hTot x y with h' | h'
        · exact absurd h' h
        · exact h'
      refine List.pairwise_cons.mpr ⟨?_, ih hys⟩
      intro b hb
      have : b ∈ x :: ys := (insertLe_perm le x ys).mem_iff.mp hb
      rcases List.mem_cons.mp this with hb' | hb'
      · subst hb'; exact hyx
      · exact hy b hb'

theorem pySorted_pairwise (le : α → α → Bool)
    (hTot : ∀ a b, le a b = true ∨ le b a = true)
    (hTrans : ∀ a b c, le a b = true → le b c = true → le a c = true) :
    ∀ l : List α, (pySorted le l).Pairwise (fun a b => le a b = true) := by
  intro l
  induction l with
  | nil => simp [pySorted]
  | cons x xs ih => exact insertLe_pairwise le hTot hTrans x (pySorted le xs) ih

/-- Concrete 3-file folder for the batch example (listed out of order to
exercise the sort). -/
def exEntries : List DirEntry :=
  [⟨"/d/b2.txt".data, true⟩, ⟨"/d/a1.txt".data, true⟩, ⟨"/d/c3.txt".data, true⟩]

/-- Concrete extraction oracle: file 2 is unreadable, the others extract. -/
def exExtract : Str → Except Str Str :=
  fun p => if p = "/d/b2.txt".data then .error "unreadable".data
           else .ok "some text".data

/-- Concrete summarization oracle: always succeeds with a non-empty digest. -/
def exSummarizer : Str → Except Str Str := fun _ => .ok " a summary ".data

/-- Claim C9: a folder batch yields one result per supported file, in sorted
lexicographic path order; a per-item extraction or summarization failure
yields an error record for exactly that item and the batch continues; for
the concrete 3-file folder whose second file fails extraction, the batch
yields 3 ordered results with only the second carrying an error. -/
theorem iter_file_summaries_batch :
    (∀ entries : List DirEntry,
      (collect_supported_files entries).Pairwise (fun a b => strLe a b = true)
      ∧ (collect_supported_files entries).Perm
          ((entries.filter isSupportedFile).map DirEntry.path))
    ∧ (∀ (extract summarizer : Str → Except Str Str) (entries : List DirEntry)
        (folderName : Str), collect_supported_files entries ≠ [] →
        (iter_file_summaries extract summarizer entries folderName).length
            = (collect_supported_files entries).length
        ∧ ∀ i, i < (collect_supported_files entries).length →
            (iter_file_summaries extract summarizer entries folderName).getD i default
              = fileResultFor extract summarizer
                  ((collect_supported_files entries).getD i [])
            ∧ (((iter_file_summaries extract summarizer entries folderName).getD
                  i default).error.isSome ↔
                (∃ e, extract ((collect_supported_files entries).getD i []) = .error e)
                ∨ ∃ text e,
                    extract ((collect_supported_files entries).getD i []) = .ok text
                    ∧ summarizer text = .error e))
    ∧ ((iter_file_summaries exExtract exSummarizer exEntries "d".data).length = 3
      ∧ ((iter_file_summaries exExtract exSummarizer exEntries "d".data).getD
          0 default).name = "a1.txt".data
      ∧ ((iter_file_summaries exExtract exSummarizer exEntries "d".data).getD
          1 default).name = "b2.txt".data
      ∧ ((iter_file_summaries exExtract exSummarizer exEntries "d".data).getD
          2 default).name = "c3.txt".data
      ∧ ((iter_file_summaries exExtract exSummarizer exEntries "d".data).getD
          0 default).error = none
      ∧ ((iter_file_summaries exExtract exSummarizer exEntries "d".data).getD
          0 default).summary ≠ []
      ∧ (((iter_file_summaries exExtract exSummarizer exEntries "d".data).getD
          1 default).error.isSome = true)
      ∧ ((iter_file_summaries exExtract exSummarizer exEntries "d".data).getD
          1 default).summary = []
      ∧ ((iter_file_summaries exExtract exSummarizer exEntries "d".data).getD
          2 default).error = none
      ∧ ((iter_file_summaries exExtract exSummarizer exEntries "d".data).getD
          2 default).summary ≠ []) := by
  refine ⟨?_, ?_, ?_⟩
  · intro entries
    exact ⟨pySorted_pairwise strLe strLe_total strLe_trans _, pySorted_perm strLe _⟩
  · intro extract summarizer entries folderName hne
    constructor
    · rw [iter_file_summaries, if_neg hne, List.length_map]
    · intro i hi
      have hgetD : (iter_file_summaries extract summarizer entries folderName).getD
          i default
          = fileResultFor extract summarizer
              ((collect_supported_files entries).getD i []) := by
        rw [iter_file_summaries, if_neg hne]
        rw [List.getD_eq_getElem?_getD, List.getElem?_map,
          List.getD_eq_getElem?_getD,
          List.getElem?_eq_getElem hi]
        rfl
      refine ⟨hgetD, ?_⟩
      rw [hgetD, fileResultFor]
      rcases hext : extract ((collect_supported_files entries).getD i []) with e | text
      · simp [hext]
      · rcases hsum : summarizer text with e | s
        · constructor
          · intro _
            exact Or.inr ⟨text, e, rfl, hsum⟩
          · intro _
            simp [hext, hsum]
        · constructor
          · intro hcontra
            simp [hext, hsum] at hcontra
          · rintro (⟨e, he⟩ | ⟨t, e, ht, hte⟩)
            · exact absurd he (by simp)
            · obtain rfl : text = t := Except.ok.inj ht
              rw [hsum] at hte
              exact absurd hte (by simp)
  · refine ⟨by decide, by decide, by decide, by decide, by decide,
      by decide, by decide, by decide, by decide, by decide⟩

theorem iter_file_summaries_batch_witness :
    collect_supported_files exEntries ≠ []
    ∧ ((iter_file_summaries exExtract exSummarizer exEntries "d".data).length
          = (collect_supported_files exEntries).length
      ∧ ∀ i, i < (collect_supported_files exEntries).length →
          (iter_file_summaries exExtract exSummarizer exEntries "d".data).getD
              i default
            = fileResultFor exExtract exSummarizer
                ((collect_supported_files exEntries).getD i [])
          ∧ (((iter_file_summaries exExtract exSummarizer exEntries "d".data).getD
                i default).error.isSome ↔
              (∃ e, exExtract ((collect_supported_files exEntries).getD i [])
                  = .error e)
              ∨ ∃ text e,
                  exExtract ((collect_supported_files exEntries).getD i [])
                      = .ok text
                  ∧ exSummarizer text = .error e)) :=
  ⟨by decide,
    iter_file_summaries_batch.2.1 exExtract exSummarizer exEntries "d".data
      (by decide)⟩

/-! ### `server.py`: the per-connection session state machine

One session holds the message history and the conversation title
(`_get_or_create_session`).  A "chat" directive is modelled as one step of a
sequential state machine: the directive payload together with the
environment's responses (upload-store lookups via `store`, backend calls via
`backend`, and the final outcome of the background stream task).  Events
sent over the WebSocket are collected in a list. -/

/-- Message roles. -/
inductive Role
  | user
  | assistant
  | system
deriving DecidableEq

/-- One history entry `{"role": ..., "content": ...}`. -/
structure Message where
  role : Role
  content : Str
deriving DecidableEq

/-- Per-connection session state (`messages`, `conversation_title`). -/
structure Session where
  messages : List Message
  title : Str
deriving DecidableEq

/-- The initial title `"New Chat"`. -/
def NEW_CHAT : Str := "New Chat".data

/-- `config.MAX_MESSAGE_LENGTH`. -/
def MAX_MESSAGE_LENGTH : Nat := 50000

/-- `config.MAX_SESSION_MESSAGES`. -/
def MAX_SESSION_MESSAGES : Nat := 100

/-- A fresh session as created by `_get_or_create_session`. -/
def freshSession : Session := ⟨[], NEW_CHAT⟩

/-- Outbound WebSocket events relevant to the modelled paths. -/
inductive SEvent
  | token (t : Str)
  | done
  | errEv (m : Str)
deriving DecidableEq

/-- Python list slicing `l[i:]`, including negative start indices
(`l[-k:]` keeps the last `k` elements; `l[-0:]` is the whole list). -/
def pySliceFrom (l : List α) (i : Int) : List α :=
  if 0 ≤ i then l.drop i.toNat else l.drop (l.length - (-i).toNat)

/-- Python `one.split(pat)[0]`: the part before the first occurrence of
`pat` (the whole string when `pat` does not occur). -/
def takeBeforeSub (pat : Str) : Str → Str
  | [] => []
  | c :: cs => if pat.isPrefixOf (c :: cs) then [] else c :: takeBeforeSub pat cs

/-- Python `pat in s` for strings: some suffix of `s` starts with `pat`. -/
def containsSub (pat : Str) : Str → Bool
  | [] => pat.isPrefixOf []
  | c :: cs => pat.isPrefixOf (c :: cs) || containsSub pat cs

/-- The marker used to cut the per-file question tail. -/
def UQ_MARKER : Str := "\n\nUser question:".data

/-- Separator between file sections in a multi-file prompt. -/
def FILE_SEP : Str := "\n\n---\n\n".data

/-- `server._build_user_message_with_file`: short files are inlined, long
files are replaced by their combined summary. -/
def buildUserMessageWithFile (backend : Nat → Str → Except Str Str)
    (userMessage name text : Str) : Str :=
  if word_count text ≤ MAX_FILE_WORDS then
    "[File: ".data ++ name ++ "]\n".data ++ text
      ++ "\n\nUser question: ".data ++ userMessage
  else
    "[File: ".data ++ name ++ " — summarized content below]\n".data
      ++ (summarize_long_text backend text).1
      ++ "\n\nUser question: ".data ++ userMessage

/-- `server._build_user_message_with_files`. -/
def buildUserMessageWithFiles (backend : Nat → Str → Except Str Str)
    (userMessage : Str) (items : List (Str × Str)) : Str :=
  match items with
  | [it] => buildUserMessageWithFile backend userMessage it.1 it.2
  | _ =>
    let parts := items.map (fun it =>
      let one := buildUserMessageWithFile backend [] it.1 it.2
      if containsSub UQ_MARKER one then pyStrip (takeBeforeSub UQ_MARKER one)
      else one)
    let combined := joinSep FILE_SEP parts
    if userMessage = [] then combined
    else combined ++ "\n\nUser question: ".data ++ userMessage

/-- One "chat" directive: the payload fields (`message`, `file_id(s)`,
`history`) together with the outcome of the background stream task (the
ordered token list, or the exception message). -/
structure ChatArgs where
  rawMessage : Str
  fileIds : List Nat
  history : Option (List Message)
  streamOutcome : Except Str (List Str)

/-- The `user_text` computed by the chat branch: the stripped message when
no file is attached or some attached file is missing from the upload store
(the code then falls through with `user_text = message`), otherwise the
message merged with the looked-up file contents. -/
def userTextOf (store : Nat → Option (Str × Str))
    (backend : Nat → Str → Except Str Str) (a : ChatArgs) : Str :=
  if a.fileIds = [] then pyStrip a.rawMessage
  else if (a.fileIds.map store).any Option.isNone then pyStrip a.rawMessage
  else buildUserMessageWithFiles backend (pyStrip a.rawMessage)
    (a.fileIds.filterMap store)

/-- Title derivation: `user_text[:50] + "..."` when over 50 characters. -/
def truncTitle (u : Str) : Str :=
  if 50 < u.length then u.take 50 ++ "...".data else u

/-- Error text for an empty chat message. -/
def EMPTY_MSG : Str := "Empty message".data

/-- Error text for an over-length chat message. -/
def TOO_LONG_MSG : Str := "Message too long".data

/-- History selection: a client-provided history replaces the session's
messages; otherwise the new user message is appended. -/
def historyBase (s : Session) (a : ChatArgs) (userText : Str) : List Message :=
  match a.history with
  | some h => h
  | none => s.messages ++ [⟨.user, userText⟩]

/-- When files are attached and the last message is a user message, that
message is rewritten in place to the built `user_text`. -/
def rewriteLastUser (fileIds : List Nat) (userText : Str)
    (l : List Message) : List Message :=
  if fileIds ≠ [] ∧ l ≠ [] ∧ (l.getLastD ⟨.user, []⟩).role = .user then
    l.dropLast ++ [⟨.user, userText⟩]
  else l

/-- The history cap applied while handling the directive:
`messages[-(MAX_SESSION_MESSAGES - 2):]` once the length reaches the bound. -/
def capMessages (l : List Message) : List Message :=
  if MAX_SESSION_MESSAGES ≤ l.length then
    pySliceFrom l (-((MAX_SESSION_MESSAGES : Int) - 2))
  else l

/-- The re-trim applied after appending the assistant reply:
`messages[-MAX_SESSION_MESSAGES:]` once the length exceeds the bound. -/
def capAfterReply (l : List Message) : List Message :=
  if MAX_SESSION_MESSAGES < l.length then
    pySliceFrom l (-(MAX_SESSION_MESSAGES : Int))
  else l

/-- End of the stream task `_run_chat_stream`: a successful stream appends
the accumulated reply and re-trims; a failed stream appends an error
placeholder without re-trimming. -/
def appendOutcome (l : List Message) (outcome : Except Str (List Str)) :
    List Message :=
  match outcome with
  | .ok toks => capAfterReply (l ++ [⟨.assistant, joinSep [] toks⟩])
  | .error e => l ++ [⟨.assistant, "Error: ".data ++ e⟩]

/-- The error event sent when an attached file id is missing from the
upload store (the loop breaks at the first missing id). -/
def chatFileEvents (store : Nat → Option (Str × Str)) (a : ChatArgs) :
    List SEvent :=
  match a.fileIds.find? (fun fid => (store fid).isNone) with
  | some fid => [.errEv ("File not found: ".data ++ (Nat.repr fid).data)]
  | none => []

/-- The events produced by the stream task: all tokens in order then the
"done" sentinel, or a single error event. -/
def chatStreamEvents (a : ChatArgs) : List SEvent :=
  match a.streamOutcome with
  | .ok toks => toks.map SEvent.token ++ [.done]
  | .error e => [.errEv e]

/-- One "chat" directive processed to completion (validation, history
update, cap, title, stream outcome), returning the new session state and
the events sent to the client. -/
def stepChat (store : Nat → Option (Str × Str))
    (backend : Nat → Str → Except Str Str)
    (s : Session) (a : ChatArgs) : Session × List SEvent :=
  if pyStrip a.rawMessage = [] ∧ a.fileIds = [] then (s, [.errEv EMPTY_MSG])
  else if MAX_MESSAGE_LENGTH < (userTextOf store backend a).length then
    (s, chatFileEvents store a ++ [.errEv TOO_LONG_MSG])
  else
    (⟨appendOutcome
        (capMessages (rewriteLastUser a.fileIds (userTextOf store backend a)
          (historyBase s a (userTextOf store backend a))))
        a.streamOutcome,
      if s.title = NEW_CHAT ∧ userTextOf store backend a ≠ [] then
        truncTitle (userTextOf store backend a)
      else s.title⟩,
     chatFileEvents store a ++ chatStreamEvents a)

/-- Inbound directives: only "chat" touches the message history and title;
"stop" only signals the cancellation event and "folder_summary" or unknown
directives leave the session untouched. -/
inductive Directive
  | chat (a : ChatArgs)
  | stopDir
  | other

/-- One directive processed to completion. -/
def stepDirective (store : Nat → Option (Str × Str))
    (backend : Nat → Str → Except Str Str)
    (s : Session) : Directive → Session × List SEvent
  | .chat a => stepChat store backend s a
  | .stopDir => (s, [])
  | .other => (s, [])

/-- A whole directive sequence processed in arrival order. -/
def runDirectives (store : Nat → Option (Str × Str))
    (backend : Nat → Str → Except Str Str)
    (s : Session) (ds : List Directive) : Session :=
  ds.foldl (fun st d => (stepDirective store backend st d).1) s

theorem pySliceFrom_suffix (l : List α) (i : Int) : pySliceFrom l i <:+ l := by
  unfold pySliceFrom
  split_ifs with h
  · exact List.drop_suffix _ _
  · exact List.drop_suffix _ _

theorem pySliceFrom_neg_eq (l : List α) (k : Nat) (hk : 0 < k) :
    pySliceFrom l (-(k : Int)) = l.drop (l.length - k) := by
  unfold pySliceFrom
  rw [if_neg (by omega)]
  congr 1
  omega

theorem capMessages_length_le (l : List Message) :
    (capMessages l).length ≤ MAX_SESSION_MESSAGES - 1 := by
  unfold capMessages
  split_ifs with h
  · have he : -((MAX_SESSION_MESSAGES : Int) - 2) = -((98 : Nat) : Int) := by
      norm_num [MAX_SESSION_MESSAGES]
    rw [he, pySliceFrom_neg_eq l 98 (by omega), List.length_drop]
    simp only [MAX_SESSION_MESSAGES] at h ⊢
    omega
  · simp only [MAX_SESSION_MESSAGES] at h ⊢
    omega

theorem capAfterReply_length_le (l : List Message) :
    (capAfterReply l).length ≤ MAX_SESSION_MESSAGES := by
  unfold capAfterReply
  split_ifs with h
  · have he : -(MAX_SESSION_MESSAGES : Int) = -((100 : Nat) : Int) := by
      norm_num [MAX_SESSION_MESSAGES]
    rw [he, pySliceFrom_neg_eq l 100 (by omega), List.length_drop]
    simp only [MAX_SESSION_MESSAGES] at h ⊢
    omega
  · omega

/-! ### Claim C6: the history bound under task interleaving

`websocket_endpoint` processes directives sequentially, but each chat
directive only *spawns* `_run_chat_stream` as a background task
(`asyncio.create_task`); the task's closing append to
`session["messages"]` runs whenever the task completes — possibly after
later directives have already been processed and capped.  The successful
path re-trims to the last `MAX_SESSION_MESSAGES` entries, but the error
path (`server.py:465`) appends its placeholder without any re-trim.  The
interleaved model below therefore splits a chat directive into its
synchronous part (validation, history update, cap, title, spawning) and a
separate task-completion step. -/

/-- A session together with the outcomes of spawned, not-yet-completed
stream tasks.  `errSince` is a bookkeeping counter — the number of
failed-stream completions since the last chat directive's cap; it is
derived from the trace and never influences `messages`, `title` or
`pending`. -/
structure AsyncSession where
  messages : List Message
  title : Str
  pending : List (Except Str (List Str))
  errSince : Nat

/-- The fresh state: no message, placeholder title, no pending task. -/
def initAsync : AsyncSession := ⟨[], NEW_CHAT, [], 0⟩

/-- The synchronous part of one chat directive (everything
`websocket_endpoint` does before `asyncio.create_task` returns):
validation, history replacement/append, last-user rewrite, cap and title,
plus recording the spawned stream's eventual outcome as pending. -/
def stepChatSync (store : Nat → Option (Str × Str))
    (backend : Nat → Str → Except Str Str)
    (s : AsyncSession) (a : ChatArgs) : AsyncSession × List SEvent :=
  if pyStrip a.rawMessage = [] ∧ a.fileIds = [] then (s, [.errEv EMPTY_MSG])
  else if MAX_MESSAGE_LENGTH < (userTextOf store backend a).length then
    (s, chatFileEvents store a ++ [.errEv TOO_LONG_MSG])
  else
    (⟨capMessages (rewriteLastUser a.fileIds (userTextOf store backend a)
        (historyBase ⟨s.messages, s.title⟩ a (userTextOf store backend a))),
      if s.title = NEW_CHAT ∧ userTextOf store backend a ≠ [] then
        truncTitle (userTextOf store backend a)
      else s.title,
      s.pending ++ [a.streamOutcome], 0⟩,
     chatFileEvents store a)

/-- Interleaved actions: one directive's synchronous handling, or the
completion of the `i`-th pending stream task. -/
inductive AsyncAct
  | dir (d : Directive)
  | task (i : Nat)

/-- One interleaved step.  Task completion mirrors the end of
`_run_chat_stream`: a successful stream appends the accumulated reply and
re-trims to the last `MAX_SESSION_MESSAGES` entries; a failed stream
appends its error placeholder with no re-trim. -/
def asyncStep (store : Nat → Option (Str × Str))
    (backend : Nat → Str → Except Str Str)
    (s : AsyncSession) : AsyncAct → AsyncSession
  | .dir (.chat a) => (stepChatSync store backend s a).1
  | .dir .stopDir => s
  | .dir .other => s
  | .task i =>
    match s.pending[i]? with
    | none => s
    | some (.ok toks) =>
      ⟨capAfterReply (s.messages ++ [⟨.assistant, joinSep [] toks⟩]), s.title,
        s.pending.eraseIdx i, s.errSince⟩
    | some (.error e) =>
      ⟨s.messages ++ [⟨.assistant, "Error: ".data ++ e⟩], s.title,
        s.pending.eraseIdx i, s.errSince + 1⟩

/-- Run an interleaving of directives and task completions. -/
def runAsync (store : Nat → Option (Str × Str))
    (backend : Nat → Str → Except Str Str)
    (s : AsyncSession) (acts : List AsyncAct) : AsyncSession :=
  acts.foldl (asyncStep store backend) s

/-- An upload store with no entries. -/
def emptyStore : Nat → Option (Str × Str) := fun _ => none

/-- A 98-entry client-provided history. -/
def histMsg : Message := ⟨.user, "h".data⟩

/-- First chat: replaces the history with 98 client entries; its stream
fails. -/
def chatHist98Args : ChatArgs :=
  ⟨"hello".data, [], some (List.replicate 98 histMsg), .error "boom".data⟩

/-- Second chat: a plain message; its stream also fails. -/
def chatPlainErrArgs : ChatArgs := ⟨"again".data, [], none, .error "boom".data⟩

/-- Claim C6 counterexample: two chat directives are processed first (their
caps see 98 and 99 entries, below the bound), and only then do their two
stream tasks complete; each failed stream appends without re-trimming, so
the history ends at 101 > `MAX_SESSION_MESSAGES` = 100 entries.  The bound
claimed for every sequence of chat directives is therefore violated. -/
theorem history_bound_counterexample :
    (runAsync emptyStore exBackend initAsync
        [AsyncAct.dir (Directive.chat chatHist98Args),
         AsyncAct.dir (Directive.chat chatPlainErrArgs),
         AsyncAct.task 0, AsyncAct.task 0]).messages.length = 101
    ∧ MAX_SESSION_MESSAGES < 101 := by
  refine ⟨?_, ?_⟩
  · decide
  · decide

theorem asyncStep_bound (store : Nat → Option (Str × Str))
    (backend : Nat → Str → Except Str Str)
    (s : AsyncSession) (act : AsyncAct)
    (h : s.messages.length ≤ MAX_SESSION_MESSAGES + s.errSince) :
    (asyncStep store backend s act).messages.length
      ≤ MAX_SESSION_MESSAGES + (asyncStep store backend s act).errSince := by
  cases act with
  | dir d =>
    cases d with
    | chat a =>
      simp only [asyncStep]
      unfold stepChatSync
      split_ifs with h1 h2 h3
      · exact h
      · exact h
      · have := capMessages_length_le (rewriteLastUser a.fileIds
          (userTextOf store backend a)
          (historyBase ⟨s.messages, s.title⟩ a (userTextOf store backend a)))
        simp only [MAX_SESSION_MESSAGES] at this ⊢
        omega
      · have := capMessages_length_le (rewriteLastUser a.fileIds
          (userTextOf store backend a)
          (historyBase ⟨s.messages, s.title⟩ a (userTextOf store backend a)))
        simp only [MAX_SESSION_MESSAGES] at this ⊢
        omega
    | stopDir => exact h
    | other => exact h
  | task i =>
    simp only [asyncStep]
    rcases hp : s.pending[i]? with _ | outcome
    · exact h
    · rcases outcome with e | toks
      · dsimp only
        simp only [List.length_append, List.length_cons, List.length_nil]
        omega
      · dsimp only
        have := capAfterReply_length_le
          (s.messages ++ [⟨.assistant, joinSep [] toks⟩])
        omega

theorem runAsync_bound (store : Nat → Option (Str × Str))
    (backend : Nat → Str → Except Str Str) :
    ∀ (acts : List AsyncAct) (s : AsyncSession),
      s.messages.length ≤ MAX_SESSION_MESSAGES + s.errSince →
      (runAsync store backend s acts).messages.length
        ≤ MAX_SESSION_MESSAGES + (runAsync store backend s acts).errSince := by
  intro acts
  induction acts with
  | nil => intro s hs; exact hs
  | cons act acts ih =>
    intro s hs
    rw [runAsync, List.foldl_cons]
    exact ih _ (asyncStep_bound store backend s act hs)

/-- Claim C6 (amended): every trim is a Python slice `l[i:]` and keeps a
suffix of the history (only the oldest entries are ever dropped); the cap
run while handling a chat directive leaves at most
`MAX_SESSION_MESSAGES - 1` entries and the re-trim after a successful
stream at most `MAX_SESSION_MESSAGES`; but a failed stream appends without
re-trimming, so under task interleaving the history may exceed the bound —
it always stays within `MAX_SESSION_MESSAGES` plus the number of
failed-stream completions since the last chat directive's cap. -/
theorem session_history_bounded_amended :
    (∀ (store : Nat → Option (Str × Str))
      (backend : Nat → Str → Except Str Str) (acts : List AsyncAct),
      (runAsync store backend initAsync acts).messages.length
        ≤ MAX_SESSION_MESSAGES + (runAsync store backend initAsync acts).errSince)
    ∧ (∀ l : List Message,
        (capMessages l).length ≤ MAX_SESSION_MESSAGES - 1
        ∧ (capAfterReply l).length ≤ MAX_SESSION_MESSAGES)
    ∧ ∀ (l : List Message) (i : Int), pySliceFrom l i <:+ l := by
  refine ⟨?_, ?_, ?_⟩
  · intro store backend acts
    exact runAsync_bound store backend acts initAsync
      (by simp [initAsync, MAX_SESSION_MESSAGES])
  · intro l
    exact ⟨capMessages_length_le l, capAfterReply_length_le l⟩
  · intro l i
    exact pySliceFrom_suffix l i

/-! ### Claim C7: the conversation title -/

/-- A chat directive whose message is literally the placeholder text. -/
def chatNewChatArgs : ChatArgs := ⟨"New Chat".data, [], none, .ok []⟩

/-- A later ordinary chat directive. -/
def chatHelloArgs : ChatArgs := ⟨"hello".data, [], none, .ok []⟩

/-- Claim C7 counterexample: when the first non-empty user message is
literally `"New Chat"`, the title it sets still equals the placeholder, so
the next chat directive overwrites it — the title is not "set exactly once
and never overwritten by any later directive". -/
theorem title_overwrite_counterexample :
    (stepChat emptyStore exBackend freshSession chatNewChatArgs).1.title
      = NEW_CHAT
    ∧ (stepChat emptyStore exBackend
        (stepChat emptyStore exBackend freshSession chatNewChatArgs).1
        chatHelloArgs).1.title = "hello".data
    ∧ ("hello".data : Str) ≠ NEW_CHAT :=
  ⟨by decide, by decide, by decide⟩

theorem stepChat_title_stable (store : Nat → Option (Str × Str))
    (backend : Nat → Str → Except Str Str) (s : Session) (a : ChatArgs)
    (h : s.title ≠ NEW_CHAT) :
    (stepChat store backend s a).1.title = s.title := by
  unfold stepChat
  split_ifs with h1 h2 h3
  · rfl
  · rfl
  · exact absurd h3.1 h
  · rfl

theorem stepDirective_title_stable (store : Nat → Option (Str × Str))
    (backend : Nat → Str → Except Str Str) (s : Session) (d : Directive)
    (h : s.title ≠ NEW_CHAT) :
    (stepDirective store backend s d).1.title = s.title := by
  cases d with
  | chat a => exact stepChat_title_stable store backend s a h
  | stopDir => rfl
  | other => rfl

/-- Claim C7 (amended): the title is derived from the first non-empty built
user text, truncated with an ellipsis beyond 50 characters; once the title
differs from the placeholder `"New Chat"` no directive ever changes it
again — but while it still equals the placeholder (in particular when the
first message was literally `"New Chat"`) a later directive may overwrite
it. -/
theorem title_set_once_amended :
    (∀ (store : Nat → Option (Str × Str)) (backend : Nat → Str → Except Str Str)
      (s : Session) (ds : List Directive),
      s.title ≠ NEW_CHAT → (runDirectives store backend s ds).title = s.title)
    ∧ ∀ (store : Nat → Option (Str × Str)) (backend : Nat → Str → Except Str Str)
        (s : Session) (a : ChatArgs),
        s.title = NEW_CHAT →
        ¬(pyStrip a.rawMessage = [] ∧ a.fileIds = []) →
        (userTextOf store backend a).length ≤ MAX_MESSAGE_LENGTH →
        userTextOf store backend a ≠ [] →
        (stepChat store backend s a).1.title
          = truncTitle (userTextOf store backend a) := by
  constructor
  · intro store backend s ds
    induction ds generalizing s with
    | nil => intro h; rfl
    | cons d ds ih =>
      intro h
      rw [runDirectives, List.foldl_cons]
      have hstep := stepDirective_title_stable store backend s d h
      have := ih (stepDirective store backend s d).1 (by rw [hstep]; exact h)
      rw [runDirectives] at this
      rw [this, hstep]
  · intro store backend s a htitle hval hlen hne
    unfold stepChat
    rw [if_neg hval, if_neg (by omega)]
    simp only []
    rw [if_pos ⟨htitle, hne⟩]

theorem title_set_once_amended_witness :
    ((runDirectives emptyStore exBackend ⟨[], "x".data⟩
        [Directive.chat chatHelloArgs]).title = ("x".data : Str))
    ∧ (stepChat emptyStore exBackend freshSession chatHelloArgs).1.title
        = truncTitle (userTextOf emptyStore exBackend chatHelloArgs) :=
  ⟨title_set_once_amended.1 emptyStore exBackend ⟨[], "x".data⟩
      [Directive.chat chatHelloArgs] (by decide),
    title_set_once_amended.2 emptyStore exBackend freshSession chatHelloArgs
      (by decide) (by decide) (by decide) (by decide)⟩

/-! ### Claim C8: validation leaves the session untouched -/

theorem dropWhile_all_neg {p : α → Bool} :
    ∀ l : List α, (∀ c ∈ l, p c = false) → l.dropWhile p = l := by
  intro l h
  cases l with
  | nil => rfl
  | cons c cs =>
    rw [List.dropWhile_cons_of_neg]
    simp [h c (by simp)]

theorem pyStrip_all_nonspace (l : Str) (h : ∀ c ∈ l, isPySpace c = false) :
    pyStrip l = l := by
  unfold pyStrip
  rw [dropWhile_all_neg l h]
  rw [dropWhile_all_neg l.reverse (fun c hc => h c (List.mem_reverse.mp hc))]
  exact List.reverse_reverse l

/-- Claim C8: a chat directive whose stripped message is empty with no
attached file, or whose built user text exceeds `MAX_MESSAGE_LENGTH`, is
answered with an error event and leaves the session (history and title)
unchanged. -/
theorem chat_validation_rejects (store : Nat → Option (Str × Str))
    (backend : Nat → Str → Except Str Str) (s : Session) (a : ChatArgs) :
    (pyStrip a.rawMessage = [] ∧ a.fileIds = [] →
      stepChat store backend s a = (s, [SEvent.errEv EMPTY_MSG]))
    ∧ (¬(pyStrip a.rawMessage = [] ∧ a.fileIds = []) →
        MAX_MESSAGE_LENGTH < (userTextOf store backend a).length →
        (stepChat store backend s a).1 = s
        ∧ SEvent.errEv TOO_LONG_MSG ∈ (stepChat store backend s a).2) := by
  constructor
  · intro h
    unfold stepChat
    rw [if_pos h]
  · intro h1 h2
    unfold stepChat
    rw [if_neg h1, if_pos h2]
    exact ⟨rfl, by simp⟩

/-- A chat directive with a whitespace-only message and no files. -/
def blankChatArgs : ChatArgs := ⟨"   ".data, [], none, .ok []⟩

/-- A chat directive whose message is 50001 characters long. -/
def bigChatArgs : ChatArgs := ⟨List.replicate 50001 'a', [], none, .ok []⟩

theorem replicate_a_nonspace (n : Nat) :
    ∀ c ∈ List.replicate n 'a', isPySpace c = false := by
  intro c hc
  rw [List.eq_of_mem_replicate hc]
  decide

theorem userTextOf_big :
    userTextOf emptyStore exBackend bigChatArgs = List.replicate 50001 'a' := by
  unfold userTextOf
  rw [if_pos (show bigChatArgs.fileIds = [] from rfl)]
  exact pyStrip_all_nonspace _ (replicate_a_nonspace _)

theorem chat_validation_rejects_witness :
    (stepChat emptyStore exBackend freshSession blankChatArgs
        = (freshSession, [SEvent.errEv EMPTY_MSG]))
    ∧ ((stepChat emptyStore exBackend freshSession bigChatArgs).1 = freshSession
      ∧ SEvent.errEv TOO_LONG_MSG
          ∈ (stepChat emptyStore exBackend freshSession bigChatArgs).2) :=
  ⟨(chat_validation_rejects emptyStore exBackend freshSession blankChatArgs).1
      (by decide),
    (chat_validation_rejects emptyStore exBackend freshSession bigChatArgs).2
      (by
        intro hc
        have := hc.1
        rw [show bigChatArgs.rawMessage = List.replicate 50001 'a' from rfl,
          pyStrip_all_nonspace _ (replicate_a_nonspace _)] at this
        have hlen := congrArg List.length this
        rw [List.length_replicate] at hlen
        simp at hlen)
      (by
        rw [userTextOf_big, List.length_replicate, MAX_MESSAGE_LENGTH]
        omega)⟩

/-! ### Claim C1: the streaming bridge and cancellation

`_generate_sync_stream` (the producer thread) and the consumer loop of
`stream_response` communicate through a single handoff queue carrying text
fragments and the `None` end-of-stream sentinel; cancellation is a shared
`threading.Event` checked by the producer once per backend line.  The two
loops and the flag are modelled as a small-step interleaving system (one
error-free backend run; fragments are numbered).  The call compatibility of
`server._run_chat_stream`'s invocation of `ai_service.stream_response` is
modelled by comparing the call's keyword names with the accepted parameter
names, as Python does before executing the callee. -/

/-- Items travelling through the handoff queue: a fragment or the
end-of-stream sentinel (`None`). -/
inductive BItem
  | frag (t : Nat)
  | eos
deriving DecidableEq

/-- State of one bridge: fragments the backend still has to emit, queue
contents, the shared stop flag, whether the producer has returned (and
whether it returned because it observed the stop flag), the fragments
delivered to the consumer, and whether the consumer has finished. -/
structure BridgeSt where
  backend : List Nat
  queue : List BItem
  stopped : Bool
  prodDone : Bool
  obsStop : Bool
  delivered : List Nat
  consDone : Bool
deriving DecidableEq

/-- Scheduler actions: one producer loop iteration, one consumer loop
iteration, or setting the shared stop flag. -/
inductive BStep
  | prod
  | cons
  | setStop
deriving DecidableEq

/-- One interleaving step.  The producer checks the stop flag once per
fragment and, on observing it, appends the sentinel *behind* whatever is
already buffered; the consumer pops one queue item, delivering fragments
until it pops the sentinel. -/
def bridgeStep (s : BridgeSt) : BStep → BridgeSt
  | .setStop => { s with stopped := true }
  | .prod =>
    if s.prodDone then s
    else if s.stopped then
      { s with queue := s.queue ++ [.eos], prodDone := true, obsStop := true }
    else
      match s.backend with
      | [] => { s with queue := s.queue ++ [.eos], prodDone := true }
      | f :: rest => { s with backend := rest, queue := s.queue ++ [.frag f] }
  | .cons =>
    if s.consDone then s
    else
      match s.queue with
      | [] => s
      | .eos :: rest => { s with queue := rest, consDone := true }
      | .frag f :: rest =>
        { s with queue := rest, delivered := s.delivered ++ [f] }

/-- Run a schedule of interleaving steps. -/
def runBridge (s : BridgeSt) (tr : List BStep) : BridgeSt := tr.foldl bridgeStep s

/-- Fresh bridge over a backend that will emit the given fragments. -/
def initBridge (backend : List Nat) : BridgeSt :=
  ⟨backend, [], false, false, false, [], false⟩

/-- The parameters accepted by `ai_service.stream_response`. -/
def stream_response_params : List String := ["messages", "model", "ws_id"]

/-- The keyword arguments `server._run_chat_stream` passes to
`stream_response`. -/
def run_chat_stream_call_kwargs : List String :=
  ["messages", "model", "ws_id", "stop_event"]

/-- A Python call is accepted only when every keyword argument names an
accepted parameter; otherwise the call raises `TypeError` immediately. -/
def pyCallAccepted (params kwargs : List String) : Bool :=
  kwargs.all (fun k => params.contains k)

/-- Claim C1 (code bug): the `stop_event` keyword passed by
`_run_chat_stream` is not among the parameters of
`ai_service.stream_response`, so every chat stream raises `TypeError` and
the flag set by the stop directive is read by no producer; moreover, even
within the bridge mechanism itself, a fragment buffered in the handoff
queue before the producer observes cancellation is still delivered to the
consumer after that observation (run: emit fragment 10, set the stop flag,
producer observes it, consumer still delivers 10). -/
theorem stream_cancellation_code_bug :
    pyCallAccepted stream_response_params run_chat_stream_call_kwargs = false
    ∧ (runBridge (initBridge [10, 20])
        [BStep.prod, BStep.setStop, BStep.prod]).obsStop = true
    ∧ (runBridge (initBridge [10, 20])
        [BStep.prod, BStep.setStop, BStep.prod]).delivered = []
    ∧ (runBridge (initBridge [10, 20])
        [BStep.prod, BStep.setStop, BStep.prod, BStep.cons]).delivered = [10] :=
  ⟨by decide, by decide, by decide, by decide⟩

/-! ### Claim C2: concurrent streams on one session

`websocket_endpoint` spawns `_run_chat_stream` as a background task for each
chat directive; sessions keep a single `stop_event` handle.  Stream tasks of
one session are modelled as a list of handles (index = creation order) with
a per-stream stop flag, activity bit and reply accumulator, and the
session's `stop_event` slot as an optional index into that list. -/

/-- One background stream task of a session. -/
structure StreamHandle where
  stopFlag : Bool
  active : Bool
  acc : List Nat
deriving DecidableEq, Inhabited

/-- A session's stream bookkeeping: all tasks ever started plus the
`stop_event` slot. -/
structure WsSession where
  streams : List StreamHandle
  handle : Option Nat
deriving DecidableEq

/-- Events at the task level: a chat directive starting a stream, a stop
directive, a token arriving for stream `i`, and stream `i` finishing. -/
inductive WsEv
  | chat
  | stopDir
  | tok (i t : Nat)
  | finish (i : Nat)
deriving DecidableEq

/-- Update the `i`-th stream handle in place. -/
def updateStream (i : Nat) (f : StreamHandle → StreamHandle)
    (l : List StreamHandle) : List StreamHandle :=
  l.set i (f (l.getD i default))

/-- One event processed, mirroring `websocket_endpoint`/`_run_chat_stream`:
a chat directive appends a fresh active stream and overwrites the
`stop_event` slot; a stop directive sets the flag of the stream the slot
points to (no-op when the slot is empty); a token is appended to its own
stream's accumulator while that stream is active; a finishing stream marks
itself inactive and clears the slot unconditionally. -/
def wsStep (s : WsSession) : WsEv → WsSession
  | .chat => ⟨s.streams ++ [⟨false, true, []⟩], some s.streams.length⟩
  | .stopDir =>
    match s.handle with
    | none => s
    | some i =>
      ⟨updateStream i (fun h => { h with stopFlag := true }) s.streams, s.handle⟩
  | .tok i t =>
    if (s.streams.getD i default).active then
      ⟨updateStream i (fun h => { h with acc := h.acc ++ [t] }) s.streams,
        s.handle⟩
    else s
  | .finish i =>
    ⟨updateStream i (fun h => { h with active := false }) s.streams, none⟩

/-- Run a sequence of events. -/
def runWs (s : WsSession) (tr : List WsEv) : WsSession := tr.foldl wsStep s

/-- A fresh session: no stream yet. -/
def initWs : WsSession := ⟨[], none⟩

/-- Claim C2 counterexample: after two chat directives in a row the first
stream is still active with its stop flag unset while the second is also
active — the prior stream was not cancelled before the new one started, so
two bridges are active on one session. -/
theorem second_chat_no_cancel_counterexample :
    (runWs initWs [WsEv.chat, WsEv.chat]).streams.getD 0 default
      = ⟨false, true, []⟩
    ∧ (runWs initWs [WsEv.chat, WsEv.chat]).streams.getD 1 default
      = ⟨false, true, []⟩
    ∧ (runWs initWs [WsEv.chat, WsEv.chat]).handle = some 1
    ∧ (runWs initWs [WsEv.chat, WsEv.chat]).streams.length = 2 :=
  ⟨by decide, by decide, by decide, by decide⟩

theorem updateStream_getD_ne (i j : Nat) (hij : j ≠ i)
    (f : StreamHandle → StreamHandle) (l : List StreamHandle) :
    (updateStream i f l).getD j default = l.getD j default := by
  unfold updateStream
  rw [List.getD_eq_getElem?_getD, List.getD_eq_getElem?_getD,
    List.getElem?_set_ne (Ne.symm hij)]
  rw [← List.getD_eq_getElem?_getD]

/-- Claim C2 (amended): a chat directive arriving while a stream is active
starts a second stream without cancelling the prior one — existing streams
keep their stop flags, activity and accumulators, and the session's
cancellation handle is overwritten to the newest stream, so a subsequent
stop directive reaches only that newest stream; a token of one stream is
never appended to another stream's accumulator. -/
theorem second_chat_amended :
    (∀ s : WsSession,
      (wsStep s WsEv.chat).streams = s.streams ++ [⟨false, true, []⟩]
      ∧ (wsStep s WsEv.chat).handle = some s.streams.length)
    ∧ (∀ (s : WsSession) (i j : Nat), s.handle = some i → j ≠ i →
        (wsStep s WsEv.stopDir).streams.getD j default
          = s.streams.getD j default)
    ∧ ∀ (s : WsSession) (i t j : Nat), j ≠ i →
        ((wsStep s (WsEv.tok i t)).streams.getD j default).acc
          = (s.streams.getD j default).acc := by
  refine ⟨?_, ?_, ?_⟩
  · intro s
    exact ⟨rfl, rfl⟩
  · intro s i j hh hj
    simp only [wsStep, hh]
    exact updateStream_getD_ne i j hj _ s.streams
  · intro s i t j hj
    simp only [wsStep]
    split_ifs with h
    · rw [updateStream_getD_ne i j hj]
    · rfl

/-- The session state after two consecutive chat directives. -/
def s2ex : WsSession := runWs initWs [WsEv.chat, WsEv.chat]

theorem second_chat_amended_witness :
    ((wsStep s2ex WsEv.chat).streams = s2ex.streams ++ [⟨false, true, []⟩]
      ∧ (wsStep s2ex WsEv.chat).handle = some s2ex.streams.length)
    ∧ (wsStep s2ex WsEv.stopDir).streams.getD 0 default
        = s2ex.streams.getD 0 default
    ∧ ((wsStep s2ex (WsEv.tok 0 5)).streams.getD 1 default).acc
        = (s2ex.streams.getD 1 default).acc :=
  ⟨second_chat_amended.1 s2ex,
    second_chat_amended.2.1 s2ex 1 0 (by decide) (by decide),
    second_chat_amended.2.2 s2ex 0 5 1 (by decide)⟩
